import Mathlib

/-!
Verification of the MTP allocation tool (`src/app.py`).

The file shallowly embeds the allocation engine of the application:
the helper `find_cgpa_col` (app.py lines 28-33) and the pure data
transformation performed by `allocate_students` (app.py lines 35-77).
Tabular data is modelled as a `DataFrame` of named columns and rows of
cells; a cell is text, a rational number (modelling the numeric values
pandas stores), or the explicit missing marker (modelling `NaN`).
Column labels produced by the CSV intake are unique, so pandas
label-based access (`row[pref_col]`, `df[cgpa_col]`) is embedded as
positional access at the label's position.

The in-place update `df[cgpa_col] = pd.to_numeric(...)` (line 55)
mutates the caller's dataframe; the embedding passes that state
explicitly: `allocate_students` returns the caller's dataframe as it
stands after the call, together with the `Except` result.
-/

/-- A cell of the tabular data: text, a numeric value, or the missing
marker (pandas `NaN`). -/
inductive Cell where
  | str : String → Cell
  | num : ℚ → Cell
  | missing : Cell
deriving DecidableEq

/-- An in-memory tabular dataset: named columns and rows of cells,
modelling the pandas dataframe the app works on. -/
structure DataFrame where
  cols : List String
  rows : List (List Cell)
deriving DecidableEq

/-- Value of a row at column position `j`; out-of-range reads give the
missing marker (a pandas frame is rectangular, so this never matters on
well-formed data). -/
def getCell (row : List Cell) (j : ℕ) : Cell :=
  row.getD j Cell.missing

/-- ASCII lower-casing of a column name, modelling `str(c).lower()` at
app.py line 31 (headers are ASCII). -/
def lowerName (s : String) : List Char :=
  s.toList.map Char.toLower

/-- Predicate of app.py line 31, `"cgpa" in str(c).lower()`: the
lower-cased name contains the substring "cgpa". -/
def hasCgpa (c : String) : Bool :=
  decide ("cgpa".toList <:+: lowerName c)

/-- Model of `find_cgpa_col` (app.py lines 28-33): index of the first column
whose lower-cased name contains "cgpa", or `none`. -/
def find_cgpa_col (cols : List String) : Option ℕ :=
  cols.findIdx? hasCgpa

/-- Numeric value of a digit string via `foldl`; `none` if any
character is not a decimal digit. The empty string yields `some 0`
(callers guard against empties). -/
def digitsVal (cs : List Char) : Option ℕ :=
  cs.foldl
    (fun acc c =>
      match acc with
      | none => none
      | some v => if c.isDigit then some (v * 10 + (c.toNat - 48)) else none)
    (some 0)

/-- Split a character list at the first dot, if any. -/
def splitDot : List Char → List Char × Option (List Char)
  | [] => ([], none)
  | c :: rest =>
    if c = '.' then ([], some rest)
    else
      let p := splitDot rest
      (c :: p.1, p.2)

/-- Parse an unsigned decimal literal: an integer part and an optional
fractional part, at least one digit in total. -/
def parseBody (cs : List Char) : Option ℚ :=
  let p := splitDot cs
  match p.2 with
  | none =>
    if p.1.isEmpty then none
    else (digitsVal p.1).map fun v => (v : ℚ)
  | some fracPart =>
    if p.1.isEmpty && fracPart.isEmpty then none
    else
      match digitsVal p.1, digitsVal fracPart with
      | some iv, some fv => some ((iv : ℚ) + (fv : ℚ) / 10 ^ fracPart.length)
      | _, _ => none

/-- Decimal parsing of a text cell, modelling the conversion applied by
`pd.to_numeric(..., errors="coerce")` (app.py line 55): an optional
sign, an integer part and an optional fractional part; anything else
fails. (Exotic inputs pandas also accepts, such as exponents or
whitespace padding, are outside the fragment the claims exercise.) -/
def parseNumeric (s : String) : Option ℚ :=
  match s.toList with
  | '-' :: rest => (parseBody rest).map fun q => -q
  | '+' :: rest => parseBody rest
  | cs => parseBody cs

/-- Numeric coercion of one cell (`pd.to_numeric(..., errors="coerce")`,
app.py line 55): numbers stay, text parses to a number or becomes
missing, missing stays missing. -/
def coerceCell : Cell → Cell
  | Cell.num q => Cell.num q
  | Cell.missing => Cell.missing
  | Cell.str s =>
    match parseNumeric s with
    | some q => Cell.num q
    | none => Cell.missing

/-- Coerce the grade cell (position `j`) of one row. -/
def coerceRow (j : ℕ) (row : List Cell) : List Cell :=
  row.set j (coerceCell (getCell row j))

/-- Model of `df[cgpa_col] = pd.to_numeric(df[cgpa_col], errors="coerce")`
(app.py line 55): every value of the grade column is coerced, in the
dataframe itself. -/
def coerceGradeCol (df : DataFrame) (j : ℕ) : DataFrame :=
  { df with rows := df.rows.map (coerceRow j) }

/-- Sort key of a grade cell: the numeric value, or `none` for the
missing marker (`NaN`). -/
def gradeKey : Cell → Option ℚ
  | Cell.num q => some q
  | _ => none

/-- Sort key of a row, read from the grade column `j`. -/
def rowKey (j : ℕ) (row : List Cell) : Option ℚ :=
  gradeKey (getCell row j)

/-- Relation `keyBefore a b`: key `a` comes strictly before key `b` in the order
used by `sort_values(by=cgpa_col, ascending=False)` with its default
`na_position="last"` — descending by value, missing after every
present value. -/
def keyBefore (a b : Option ℚ) : Bool :=
  match a, b with
  | some x, some y => decide (y < x)
  | some _, none => true
  | _, _ => false

/-- Relation `keyTied a b`: the two keys are tied (equal values, or both
missing). -/
def keyTied (a b : Option ℚ) : Bool :=
  match a, b with
  | some x, some y => decide (x = y)
  | none, none => true
  | _, _ => false

/-- Comparison used to rank rows decorated with their original
position: grade descending with missing last, ties broken by original
position. This is the tie order the code documents (the comment at
app.py line 59: "tie-breaker: keep original order") — the intended,
stable sort by grade alone is exactly the sort by this lexicographic
comparison. -/
def rankLE (j : ℕ) (a b : ℕ × List Cell) : Bool :=
  keyBefore (rowKey j a.2) (rowKey j b.2) ||
    (keyTied (rowKey j a.2) (rowKey j b.2) && decide (a.1 ≤ b.1))

/-- Model of
`df.sort_values(by=cgpa_col, ascending=False).reset_index(drop=True)`
(app.py line 60) under its intended tie order: grade descending,
missing grades last (pandas default `na_position="last"`), original
order among ties (the documented tie-breaker of the line-59 comment).
Caveat: the call uses pandas' default `kind="quicksort"`, which is not
stable, so the real code does not guarantee this tie order once more
than about 16 rows carry tied grades; that defect is settled in the
stability claim below as a code bug. Every other property proved in
this file is insensitive to the order among tied rows, so this model
is a valid refinement for them. -/
def rankRows (j : ℕ) (rows : List (List Cell)) : List (List Cell) :=
  (List.insertionSort (fun a b => rankLE j a b = true) rows.enum).map Prod.snd

/-- Number of preference columns: `n = len(cols[cgpa_idx+1:])`
(app.py lines 46-50). -/
def prefCount (df : DataFrame) (j : ℕ) : ℕ :=
  (df.cols.drop (j + 1)).length

/-- The assignment loop (app.py lines 62-66): the row at rank `idx`
receives the value of preference column `idx % n`, which on the full
row is the cell at position `j + 1 + idx % n` (label access
`row[pref_cols[idx % n]]` with unique labels). -/
def assignedList (j n : ℕ) (rows : List (List Cell)) : List Cell :=
  rows.enum.map fun p => getCell p.2 (j + 1 + p.1 % n)

/-- The ranked rows of the accepted dataframe. -/
def rankedRows (df : DataFrame) (j : ℕ) : List (List Cell) :=
  rankRows j (coerceGradeCol df j).rows

/-- The `AssignedFaculty` column computed for the accepted dataframe. -/
def assignedVals (df : DataFrame) (j : ℕ) : List Cell :=
  assignedList j (prefCount df j) (rankedRows df j)

/-- Model of `df_sorted["AssignedFaculty"] = assigned` (app.py line 68): each
ranked row extended with its assigned faculty. -/
def allocRows (df : DataFrame) (j : ℕ) : List (List Cell) :=
  List.zipWith (fun r a => r ++ [a]) (rankedRows df j) (assignedVals df j)

/-- The allocation table (`allocation_df`, app.py lines 68-71):
original columns followed by `AssignedFaculty`, rows in rank order. -/
def allocTable (df : DataFrame) (j : ℕ) : DataFrame :=
  { cols := df.cols ++ ["AssignedFaculty"], rows := allocRows df j }

/-- One step of collecting distinct cells: keep the accumulator, or
append a first-seen value at the end. -/
def distinctsStep (acc : List Cell) (c : Cell) : List Cell :=
  if c ∈ acc then acc else acc ++ [c]

/-- Distinct cells of a list, in order of first appearance. -/
def distincts (l : List Cell) : List Cell :=
  l.foldl distinctsStep []

/-- Each distinct cell with its multiplicity, in first-appearance
order (the counting step of `value_counts(dropna=False)`,
app.py line 74; the missing marker is its own group). -/
def tally (vals : List Cell) : List (Cell × ℕ) :=
  (distincts vals).map fun v => (v, vals.count v)

/-- Descending-count comparison for the count table. -/
def countGE (p q : Cell × ℕ) : Bool :=
  decide (q.2 ≤ p.2)

/-- Model of `value_counts(dropna=False)` (app.py line 74): distinct assigned
values with their counts, ordered by descending count (stable, so
equal counts keep first-appearance order). -/
def facCounts (vals : List Cell) : List (Cell × ℕ) :=
  List.insertionSort (fun p q => countGE p q = true) (tally vals)

/-- The faculty count table (`fac_count`, app.py lines 74-75): rows of
shape (Faculty, AllocatedCount). -/
def facCountTable (df : DataFrame) (j : ℕ) : List (Cell × ℕ) :=
  facCounts (assignedVals df j)

/-- Error kind of this component: both failures raised by
`allocate_students` are `ValueError`s describing invalid input
(app.py lines 44 and 48). -/
inductive AllocError where
  | invalidInput : String → AllocError
deriving DecidableEq

deriving instance DecidableEq for Except

/-- Message of the failure at app.py line 44. -/
def msgNoCgpa : String :=
  "No column with name containing \x27cgpa\x27 found. Please ensure your CSV has a CGPA column."

/-- Message of the failure at app.py line 48. -/
def msgNoPref : String :=
  "No preference columns found after the CGPA column. At least one preference column is required."

/-- Model of `allocate_students` (app.py lines 35-77). The first component is
the caller's dataframe as it stands after the call (line 55 coerces
the grade column of the caller's frame in place; the embedding passes
that state explicitly). The second component is the returned pair
(allocation table, faculty count table) or the raised failure. -/
def allocate_students (df : DataFrame) :
    DataFrame × Except AllocError (DataFrame × List (Cell × ℕ)) :=
  match find_cgpa_col df.cols with
  | none => (df, Except.error (AllocError.invalidInput msgNoCgpa))
  | some j =>
    if (df.cols.drop (j + 1)).length = 0 then
      (df, Except.error (AllocError.invalidInput msgNoPref))
    else
      (coerceGradeCol df j, Except.ok (allocTable df j, facCountTable df j))

lemma keyBefore_irrefl (a : Option ℚ) : keyBefore a a = false := by
  cases a <;> simp [keyBefore]

lemma keyTied_refl (a : Option ℚ) : keyTied a a = true := by
  cases a <;> simp [keyTied]

lemma keyTied_symm {a b : Option ℚ} (h : keyTied a b = true) : keyTied b a = true := by
  cases a <;> cases b <;> simp_all [keyTied, eq_comm]

lemma key_total (a b : Option ℚ) :
    keyBefore a b = true ∨ keyBefore b a = true ∨ keyTied a b = true := by
  cases a with
  | none =>
    cases b with
    | none => simp [keyTied]
    | some y => simp [keyBefore]
  | some x =>
    cases b with
    | none => simp [keyBefore]
    | some y =>
      simp only [keyBefore, keyTied, decide_eq_true_eq]
      rcases lt_trichotomy x y with h | h | h <;> tauto

lemma keyBefore_trans {a b c : Option ℚ}
    (h1 : keyBefore a b = true) (h2 : keyBefore b c = true) : keyBefore a c = true := by
  cases a <;> cases b <;> cases c <;> simp_all [keyBefore]
  linarith

lemma keyBefore_tied {a b c : Option ℚ}
    (h1 : keyBefore a b = true) (h2 : keyTied b c = true) : keyBefore a c = true := by
  cases a <;> cases b <;> cases c <;> simp_all [keyBefore, keyTied]

lemma keyTied_before {a b c : Option ℚ}
    (h1 : keyTied a b = true) (h2 : keyBefore b c = true) : keyBefore a c = true := by
  cases a <;> cases b <;> cases c <;> simp_all [keyBefore, keyTied]

lemma keyTied_trans {a b c : Option ℚ}
    (h1 : keyTied a b = true) (h2 : keyTied b c = true) : keyTied a c = true := by
  cases a <;> cases b <;> cases c <;> simp_all [keyTied]

lemma rankLE_total (j : ℕ) (a b : ℕ × List Cell) :
    rankLE j a b = true ∨ rankLE j b a = true := by
  rcases key_total (rowKey j a.2) (rowKey j b.2) with h | h | h
  · left; simp [rankLE, h]
  · right; simp [rankLE, h]
  · rcases Nat.le_total a.1 b.1 with h2 | h2
    · left; simp [rankLE, h, h2]
    · right; simp [rankLE, keyTied_symm h, h2]

lemma rankLE_trans (j : ℕ) {a b c : ℕ × List Cell}
    (h1 : rankLE j a b = true) (h2 : rankLE j b c = true) : rankLE j a c = true := by
  simp only [rankLE, Bool.or_eq_true, Bool.and_eq_true, decide_eq_true_eq] at h1 h2 ⊢
  rcases h1 with h1 | ⟨h1, h1i⟩ <;> rcases h2 with h2 | ⟨h2, h2i⟩
  · exact Or.inl (keyBefore_trans h1 h2)
  · exact Or.inl (keyBefore_tied h1 h2)
  · exact Or.inl (keyTied_before h1 h2)
  · exact Or.inr ⟨keyTied_trans h1 h2, le_trans h1i h2i⟩

lemma insertionSort_rank_pairwise (j : ℕ) (l : List (ℕ × List Cell)) :
    (List.insertionSort (fun a b => rankLE j a b = true) l).Pairwise
      (fun a b => rankLE j a b = true) := by
  haveI : IsTotal (ℕ × List Cell) (fun a b => rankLE j a b = true) := ⟨rankLE_total j⟩
  haveI : IsTrans (ℕ × List Cell) (fun a b => rankLE j a b = true) :=
    ⟨fun a b c => rankLE_trans j⟩
  exact List.sorted_insertionSort _ l

lemma enum_pairwise_fst_lt {α : Type} (l : List α) :
    l.enum.Pairwise fun p q => p.1 < q.1 := by
  rw [List.pairwise_iff_getElem]
  intro i k hi hk hik
  simp only [List.getElem_enum]
  exact hik

lemma rankRows_perm (j : ℕ) (rows : List (List Cell)) :
    (rankRows j rows).Perm rows := by
  have h := (List.perm_insertionSort (fun a b => rankLE j a b = true) rows.enum).map Prod.snd
  rwa [List.enum_map_snd] at h

lemma rankRows_sorted (j : ℕ) (rows : List (List Cell)) :
    (rankRows j rows).Pairwise fun r s =>
      (keyBefore (rowKey j r) (rowKey j s) || keyTied (rowKey j r) (rowKey j s)) = true := by
  unfold rankRows
  rw [List.pairwise_map]
  refine (insertionSort_rank_pairwise j rows.enum).imp ?_
  intro a b h
  simp only [rankLE, Bool.or_eq_true, Bool.and_eq_true] at h ⊢
  tauto

lemma rankRows_filter_key (j : ℕ) (rows : List (List Cell)) (k : Option ℚ) :
    (rankRows j rows).filter (fun r => decide (rowKey j r = k)) =
      rows.filter (fun r => decide (rowKey j r = k)) := by
  have e1 : (rankRows j rows).filter (fun r => decide (rowKey j r = k)) =
      ((List.insertionSort (fun a b => rankLE j a b = true) rows.enum).filter
        ((fun r => decide (rowKey j r = k)) ∘ Prod.snd)).map Prod.snd :=
    List.filter_map _ _
  have e2 : rows.filter (fun r => decide (rowKey j r = k)) =
      (rows.enum.filter ((fun r => decide (rowKey j r = k)) ∘ Prod.snd)).map Prod.snd := by
    conv_lhs => rw [← List.enum_map_snd rows]
    exact List.filter_map _ _
  rw [e1, e2]
  congr 1
  set q := ((fun r => decide (rowKey j r = k)) ∘ Prod.snd) with hq
  set dec := List.insertionSort (fun a b => rankLE j a b = true) rows.enum with hdec
  have hperm : (dec.filter q).Perm (rows.enum.filter q) :=
    (List.perm_insertionSort _ _).filter q
  have hsortA : (dec.filter q).Pairwise (fun a b => rankLE j a b = true) :=
    (insertionSort_rank_pairwise j rows.enum).filter q
  have hB : (rows.enum.filter q).Pairwise (fun a b => a.1 < b.1) :=
    (enum_pairwise_fst_lt rows).filter q
  have hBne : (rows.enum.filter q).Pairwise (fun a b => a.1 ≠ b.1) :=
    hB.imp fun h => Nat.ne_of_lt h
  have hmapB : ((rows.enum.filter q).map Prod.fst).Pairwise (· ≠ ·) :=
    List.pairwise_map.mpr hBne
  have hmapA : ((dec.filter q).map Prod.fst).Pairwise (· ≠ ·) :=
    ((hperm.map Prod.fst).nodup_iff).mpr hmapB
  have hAne : (dec.filter q).Pairwise (fun a b => a.1 ≠ b.1) :=
    List.pairwise_map.mp hmapA
  have hAlt : (dec.filter q).Pairwise (fun a b => a.1 < b.1) := by
    rw [List.pairwise_iff_getElem]
    intro i i2 hi hi2 hlt
    have hr := List.pairwise_iff_getElem.mp hsortA i i2 hi hi2 hlt
    have hne := List.pairwise_iff_getElem.mp hAne i i2 hi hi2 hlt
    have hk1 : rowKey j ((dec.filter q)[i]).2 = k := by
      have hm := List.of_mem_filter (List.getElem_mem hi)
      simpa [hq] using hm
    have hk2 : rowKey j ((dec.filter q)[i2]).2 = k := by
      have hm := List.of_mem_filter (List.getElem_mem hi2)
      simpa [hq] using hm
    have hle : ((dec.filter q)[i]).1 ≤ ((dec.filter q)[i2]).1 := by
      have hb := hr
      simp only [rankLE, hk1, hk2, keyBefore_irrefl, keyTied_refl, Bool.false_or,
        Bool.true_and, decide_eq_true_eq] at hb
      exact hb
    exact lt_of_le_of_ne hle hne
  haveI : IsAntisymm (ℕ × List Cell) (fun a b => a.1 < b.1) :=
    ⟨fun a b h h2 => absurd (h.trans h2) (lt_irrefl _)⟩
  exact List.eq_of_perm_of_sorted hperm hAlt hB

lemma mem_foldl_distinctsStep (l acc : List Cell) (v : Cell) :
    v ∈ l.foldl distinctsStep acc ↔ v ∈ acc ∨ v ∈ l := by
  induction l generalizing acc with
  | nil => simp
  | cons c t ih =>
    simp only [List.foldl_cons, distinctsStep]
    by_cases hc : c ∈ acc
    · rw [if_pos hc, ih]
      simp only [List.mem_cons]
      constructor
      · rintro (h | h)
        · exact Or.inl h
        · exact Or.inr (Or.inr h)
      · rintro (h | h | h)
        · exact Or.inl h
        · exact Or.inl (h ▸ hc)
        · exact Or.inr h
    · rw [if_neg hc, ih]
      simp only [List.mem_append, List.mem_cons, List.mem_singleton]
      tauto

lemma nodup_foldl_distinctsStep (l : List Cell) :
    ∀ acc : List Cell, acc.Nodup → (l.foldl distinctsStep acc).Nodup := by
  induction l with
  | nil => intro acc h; simpa using h
  | cons c t ih =>
    intro acc h
    simp only [List.foldl_cons, distinctsStep]
    by_cases hc : c ∈ acc
    · rw [if_pos hc]; exact ih acc h
    · rw [if_neg hc]
      refine ih _ ?_
      simp [List.nodup_append, h, hc]

lemma distincts_nodup (l : List Cell) : (distincts l).Nodup :=
  nodup_foldl_distinctsStep l [] (by simp)

lemma mem_distincts (l : List Cell) (v : Cell) : v ∈ distincts l ↔ v ∈ l := by
  rw [distincts, mem_foldl_distinctsStep]
  simp

lemma count_add_filter_ne (a : Cell) (l : List Cell) :
    l.count a + (l.filter fun c => decide (c ≠ a)).length = l.length := by
  induction l with
  | nil => simp
  | cons c t ih =>
    by_cases h : c = a
    · subst h
      simp only [List.count_cons_self, List.filter_cons]
      have hd : (decide (c ≠ c)) = false := by simp
      rw [hd]
      simp only [Bool.false_eq_true, if_false, List.length_cons]
      omega
    · rw [List.count_cons_of_ne (fun e => h e.symm)]
      have hd : (decide (c ≠ a)) = true := by simp [h]
      rw [List.filter_cons, hd]
      simp only [if_true, List.length_cons]
      omega

lemma sum_counts (d : List Cell) :
    ∀ l : List Cell, d.Nodup → (∀ v ∈ l, v ∈ d) →
      ((d.map fun v => l.count v).sum = l.length) := by
  induction d with
  | nil =>
    intro l _ hcov
    have : l = [] := List.eq_nil_iff_forall_not_mem.mpr fun v hv => by simpa using hcov v hv
    simp [this]
  | cons a d2 ih =>
    intro l hnd hcov
    rw [List.nodup_cons] at hnd
    simp only [List.map_cons, List.sum_cons]
    have hmap : d2.map (fun v => l.count v) =
        d2.map fun v => (l.filter fun c => decide (c ≠ a)).count v := by
      refine List.map_congr_left fun v hv => ?_
      have hva : v ≠ a := fun e => hnd.1 (e ▸ hv)
      exact (List.count_filter (by simpa using hva)).symm
    rw [hmap, ih _ hnd.2 ?_]
    · exact count_add_filter_ne a l
    · intro v hv
      rw [List.mem_filter] at hv
      have hva : v ≠ a := by simpa using hv.2
      have := hcov v hv.1
      simp only [List.mem_cons] at this
      tauto

lemma map_snd_tally (vals : List Cell) :
    (tally vals).map Prod.snd = (distincts vals).map fun v => vals.count v := by
  simp [tally, List.map_map, Function.comp]

lemma map_fst_tally (vals : List Cell) :
    (tally vals).map Prod.fst = distincts vals := by
  simp [tally, List.map_map, Function.comp_def]

lemma sum_tally (vals : List Cell) :
    ((tally vals).map Prod.snd).sum = vals.length := by
  rw [map_snd_tally]
  exact sum_counts (distincts vals) vals (distincts_nodup vals)
    fun v hv => (mem_distincts vals v).mpr hv

lemma countGE_total (p q : Cell × ℕ) : countGE p q = true ∨ countGE q p = true := by
  simp only [countGE, decide_eq_true_eq]
  omega

lemma countGE_trans {p q r : Cell × ℕ}
    (h1 : countGE p q = true) (h2 : countGE q r = true) : countGE p r = true := by
  simp only [countGE, decide_eq_true_eq] at h1 h2 ⊢
  omega

lemma facCounts_perm_tally (vals : List Cell) : (facCounts vals).Perm (tally vals) :=
  List.perm_insertionSort _ _

lemma facCounts_sorted (vals : List Cell) :
    (facCounts vals).Pairwise fun p q => q.2 ≤ p.2 := by
  haveI : IsTotal (Cell × ℕ) (fun p q => countGE p q = true) := ⟨countGE_total⟩
  haveI : IsTrans (Cell × ℕ) (fun p q => countGE p q = true) :=
    ⟨fun p q r => countGE_trans⟩
  refine (List.sorted_insertionSort _ (tally vals)).imp fun h => ?_
  simpa [countGE] using h

lemma facCounts_fst_nodup (vals : List Cell) :
    ((facCounts vals).map Prod.fst).Nodup := by
  have h := (facCounts_perm_tally vals).map Prod.fst
  rw [h.nodup_iff, map_fst_tally]
  exact distincts_nodup vals

lemma facCounts_mem_fst (vals : List Cell) (v : Cell) :
    v ∈ (facCounts vals).map Prod.fst ↔ v ∈ vals := by
  have h := (facCounts_perm_tally vals).map Prod.fst
  rw [h.mem_iff, map_fst_tally]
  exact mem_distincts vals v

lemma facCounts_counts (vals : List Cell) :
    ∀ p ∈ facCounts vals, p.2 = vals.count p.1 := by
  intro p hp
  have hp2 : p ∈ tally vals := (facCounts_perm_tally vals).subset hp
  simp only [tally, List.mem_map] at hp2
  rcases hp2 with ⟨v, _, hv⟩
  rw [← hv]

lemma facCounts_sum (vals : List Cell) :
    ((facCounts vals).map Prod.snd).sum = vals.length := by
  rw [((facCounts_perm_tally vals).map Prod.snd).sum_eq]
  exact sum_tally vals

lemma allocate_students_ok (df : DataFrame) (j : ℕ)
    (hj : find_cgpa_col df.cols = some j) (hp : j + 1 < df.cols.length) :
    allocate_students df =
      (coerceGradeCol df j, Except.ok (allocTable df j, facCountTable df j)) := by
  have hlen : ¬ ((df.cols.drop (j + 1)).length = 0) := by
    rw [List.length_drop]; omega
  simp only [allocate_students, hj]
  rw [if_neg hlen]

lemma allocate_students_noCgpa (df : DataFrame)
    (h : find_cgpa_col df.cols = none) :
    allocate_students df = (df, Except.error (AllocError.invalidInput msgNoCgpa)) := by
  unfold allocate_students
  rw [h]

lemma allocate_students_noPref (df : DataFrame) (j : ℕ)
    (hj : find_cgpa_col df.cols = some j) (hp : df.cols.length ≤ j + 1) :
    allocate_students df = (df, Except.error (AllocError.invalidInput msgNoPref)) := by
  unfold allocate_students
  rw [hj]
  have hlen : (df.cols.drop (j + 1)).length = 0 := by
    rw [List.length_drop]; omega
  simp [hlen]

lemma zipWith_append_dropLast :
    ∀ (xs : List (List Cell)) (ys : List Cell), ys.length = xs.length →
      (List.zipWith (fun r a => r ++ [a]) xs ys).map List.dropLast = xs := by
  intro xs
  induction xs with
  | nil => intro ys h; simp
  | cons x t ih =>
    intro ys h
    cases ys with
    | nil => simp at h
    | cons y ys2 =>
      simp only [List.zipWith_cons_cons, List.map_cons, List.dropLast_concat]
      rw [ih ys2 (by simpa using h)]

lemma zipWith_append_getLast :
    ∀ (xs : List (List Cell)) (ys : List Cell), ys.length = xs.length →
      (List.zipWith (fun r a => r ++ [a]) xs ys).map List.getLast? = ys.map some := by
  intro xs
  induction xs with
  | nil => intro ys h; rw [List.length_nil, List.length_eq_zero] at h; simp [h]
  | cons x t ih =>
    intro ys h
    cases ys with
    | nil => simp at h
    | cons y ys2 =>
      simp only [List.zipWith_cons_cons, List.map_cons, List.getLast?_concat]
      rw [ih ys2 (by simpa using h)]

lemma rankedRows_length (df : DataFrame) (j : ℕ) :
    (rankedRows df j).length = df.rows.length := by
  unfold rankedRows
  rw [(rankRows_perm j (coerceGradeCol df j).rows).length_eq]
  simp [coerceGradeCol]

lemma assignedVals_length (df : DataFrame) (j : ℕ) :
    (assignedVals df j).length = (rankedRows df j).length := by
  simp [assignedVals, assignedList, List.enum_length]

lemma allocRows_eq_zip (df : DataFrame) (j : ℕ) :
    allocRows df j = List.zipWith (fun r a => r ++ [a]) (rankedRows df j) (assignedVals df j) :=
  rfl

lemma allocRows_length (df : DataFrame) (j : ℕ) :
    (allocRows df j).length = df.rows.length := by
  rw [allocRows_eq_zip, List.length_zipWith, assignedVals_length, min_self]
  exact rankedRows_length df j

lemma allocRows_dropLast (df : DataFrame) (j : ℕ) :
    (allocRows df j).map List.dropLast = rankedRows df j := by
  rw [allocRows_eq_zip]
  exact zipWith_append_dropLast _ _ (assignedVals_length df j)

lemma allocRows_getLast (df : DataFrame) (j : ℕ) :
    (allocRows df j).map List.getLast? = (assignedVals df j).map some := by
  rw [allocRows_eq_zip]
  exact zipWith_append_getLast _ _ (assignedVals_length df j)

/-- C5: for every sequence of column names, `find_cgpa_col` returns the
zero-based position of the first column (left to right) whose
lower-cased name contains the substring "cgpa", and `none` when no
column name contains it; in particular it returns 1 for
["Name", "SomeCGPA", "Pref1", "Pref2"] and `none` for
["Name", "Score", "Pref1"]. -/
theorem find_cgpa_col_first_match (cols : List String) :
    (find_cgpa_col cols = none ↔ ∀ c ∈ cols, ¬ ("cgpa".toList <:+: lowerName c)) ∧
    (∀ i : ℕ, find_cgpa_col cols = some i ↔
      ∃ h : i < cols.length,
        ("cgpa".toList <:+: lowerName (cols.get ⟨i, h⟩)) ∧
          ∀ k, (hk : k < i) → ¬ ("cgpa".toList <:+: lowerName (cols.get ⟨k, hk.trans h⟩))) ∧
    find_cgpa_col ["Name", "SomeCGPA", "Pref1", "Pref2"] = some 1 ∧
    find_cgpa_col ["Name", "Score", "Pref1"] = none := by
  refine ⟨?_, ?_, by decide, by decide⟩
  · rw [find_cgpa_col, List.findIdx?_eq_none_iff]
    constructor
    · intro h c hc
      simpa [hasCgpa] using h c hc
    · intro h c hc
      simpa [hasCgpa] using h c hc
  · intro i
    rw [find_cgpa_col, List.findIdx?_eq_some_iff_findIdx_eq]
    constructor
    · rintro ⟨hi, hfind⟩
      have hch := (List.findIdx_eq hi).mp hfind
      refine ⟨hi, ?_, ?_⟩
      · simpa [hasCgpa, List.get_eq_getElem] using hch.1
      · intro k hk
        simpa [hasCgpa, List.get_eq_getElem] using hch.2 k hk
    · rintro ⟨hi, hch, hlt⟩
      refine ⟨hi, (List.findIdx_eq hi).mpr ⟨?_, ?_⟩⟩
      · simpa [hasCgpa, List.get_eq_getElem] using hch
      · intro k hk
        simpa [hasCgpa, List.get_eq_getElem] using hlt k hk

theorem find_cgpa_col_first_match_witness :
    find_cgpa_col ["Name", "SomeCGPA", "Pref1", "Pref2"] = some 1 ∧
    find_cgpa_col ["Name", "Score", "Pref1"] = none :=
  ⟨(find_cgpa_col_first_match []).2.2.1, (find_cgpa_col_first_match []).2.2.2⟩

/-- C3: `allocate_students` fails exactly when the dataset has no
column whose name contains "cgpa" (case-insensitively) or has no
columns after the first such column; in the failure case no output
tables are produced (the result carries only the error), and every
error it raises is of the invalid-input kind. (In the embedding the
engine is total, so there is no other failure to propagate; the
re-raise of foreign failures at app.py lines 79-81 has no separate
observable content here.) -/
theorem allocate_error_iff_invalid (df : DataFrame) :
    ((∃ e, (allocate_students df).2 = Except.error e) ↔
      find_cgpa_col df.cols = none ∨
        ∃ j, find_cgpa_col df.cols = some j ∧ df.cols.length ≤ j + 1) ∧
    ∀ e, (allocate_students df).2 = Except.error e →
      (e = AllocError.invalidInput msgNoCgpa ∨ e = AllocError.invalidInput msgNoPref) := by
  rcases hc : find_cgpa_col df.cols with _ | j
  · rw [allocate_students_noCgpa df hc]
    refine ⟨iff_of_true ⟨_, rfl⟩ (Or.inl rfl), ?_⟩
    intro e he
    injection he with h2
    exact Or.inl h2.symm
  · by_cases hlen : df.cols.length ≤ j + 1
    · rw [allocate_students_noPref df j hc hlen]
      refine ⟨iff_of_true ⟨_, rfl⟩ (Or.inr ⟨j, rfl, hlen⟩), ?_⟩
      intro e he
      injection he with h2
      exact Or.inr h2.symm
    · push_neg at hlen
      rw [allocate_students_ok df j hc hlen]
      constructor
      · constructor
        · rintro ⟨e, he⟩
          simp at he
        · rintro (h | ⟨j2, hj2, hlen2⟩)
          · simp at h
          · injection hj2 with h3
            omega
      · intro e he
        simp at he

def noCgpaDf : DataFrame :=
  { cols := ["Name", "Score"], rows := [] }

theorem allocate_error_iff_invalid_witness :
    ∃ e, (allocate_students noCgpaDf).2 = Except.error e :=
  (allocate_error_iff_invalid noCgpaDf).1.mpr (Or.inl (by decide))

def stableDf : DataFrame :=
  { cols := ["Name", "CGPA", "Pref1"],
    rows := [
      [Cell.str "A", Cell.num 3, Cell.str "f"],
      [Cell.str "B", Cell.num 3, Cell.str "g"],
      [Cell.str "C", Cell.num 1, Cell.str "h"],
      [Cell.str "D", Cell.missing, Cell.str "e"]] }

/-- A dataset on which the stability requirement bites: 17 data rows,
every grade tied at 3.0. Numpy's quicksort (pandas' default sort kind)
falls back to a stable insertion sort only for at most 16 elements, so
this is past the size up to which the code is accidentally stable. -/
def tiedDf : DataFrame :=
  { cols := ["Name", "CGPA", "P1"],
    rows := [
      [Cell.str "r01", Cell.num 3, Cell.str "f"],
      [Cell.str "r02", Cell.num 3, Cell.str "f"],
      [Cell.str "r03", Cell.num 3, Cell.str "f"],
      [Cell.str "r04", Cell.num 3, Cell.str "f"],
      [Cell.str "r05", Cell.num 3, Cell.str "f"],
      [Cell.str "r06", Cell.num 3, Cell.str "f"],
      [Cell.str "r07", Cell.num 3, Cell.str "f"],
      [Cell.str "r08", Cell.num 3, Cell.str "f"],
      [Cell.str "r09", Cell.num 3, Cell.str "f"],
      [Cell.str "r10", Cell.num 3, Cell.str "f"],
      [Cell.str "r11", Cell.num 3, Cell.str "f"],
      [Cell.str "r12", Cell.num 3, Cell.str "f"],
      [Cell.str "r13", Cell.num 3, Cell.str "f"],
      [Cell.str "r14", Cell.num 3, Cell.str "f"],
      [Cell.str "r15", Cell.num 3, Cell.str "f"],
      [Cell.str "r16", Cell.num 3, Cell.str "f"],
      [Cell.str "r17", Cell.num 3, Cell.str "f"]] }

/-- C2 (code bug): the claim — and the code's own comment at app.py
line 59 ("tie-breaker: keep original order") — require the ranked
sequence to be the stable descending sort of the rows, so on `tiedDf`
(accepted, 17 rows all tied at grade 3.0) the ranked order must equal
the input order, as this theorem evaluates in the intended-order
model. The code does not guarantee that: app.py line 60 calls
`sort_values` with pandas' default `kind="quicksort"`, which pandas
documents as not stable (only `mergesort`/`stable` are), and numpy's
introsort reorders tied keys once a partition exceeds its 16-element
insertion-sort threshold. The implementation thus contradicts its own
documented tie-breaking; the fix is `kind="mergesort"`. -/
theorem ranking_required_order_at_tied_input :
    find_cgpa_col tiedDf.cols = some 1 ∧
    1 + 1 < tiedDf.cols.length ∧
    rankedRows tiedDf 1 = tiedDf.rows ∧
    (allocTable tiedDf 1).rows.map List.dropLast = tiedDf.rows := by
  decide

/-- C1: for every accepted dataset, the allocation row at zero-based
rank `idx` carries as its appended `AssignedFaculty` value the cell
of that same ranked row at overall position `j + 1 + idx % n`, i.e.
the preference column at position `idx mod n` among the `n`
preference columns taken left to right. -/
theorem allocate_round_robin (df : DataFrame) (j : ℕ)
    (hj : find_cgpa_col df.cols = some j) (hp : j + 1 < df.cols.length) :
    (allocate_students df).2 = Except.ok (allocTable df j, facCountTable df j) ∧
    ∀ idx : ℕ,
      ((allocTable df j).rows[idx]?).bind List.getLast? =
        ((rankedRows df j)[idx]?).map fun row =>
          getCell row (j + 1 + idx % prefCount df j) := by
  refine ⟨by rw [allocate_students_ok df j hj hp], ?_⟩
  intro idx
  show ((allocRows df j)[idx]?).bind List.getLast? = _
  rw [allocRows_eq_zip, List.getElem?_zipWith]
  cases hidx : (rankedRows df j)[idx]? with
  | none =>
    have hlen : (rankedRows df j).length ≤ idx := by
      by_contra hcon
      push_neg at hcon
      rw [List.getElem?_eq_getElem hcon] at hidx
      simp at hidx
    have hidx2 : (assignedVals df j)[idx]? = none :=
      List.getElem?_eq_none (by rw [assignedVals_length]; exact hlen)
    rw [hidx2]
    simp
  | some r =>
    have ha : (assignedVals df j)[idx]? =
        some (getCell r (j + 1 + idx % prefCount df j)) := by
      show ((rankedRows df j).enum.map
        fun p => getCell p.2 (j + 1 + p.1 % prefCount df j))[idx]? = _
      rw [List.getElem?_map, List.getElem?_enum, hidx]
      rfl
    rw [ha]
    simp [List.getLast?_concat]

theorem allocate_round_robin_witness :
    ((allocTable stableDf 1).rows[2]?).bind List.getLast? =
      ((rankedRows stableDf 1)[2]?).map fun row =>
        getCell row (1 + 1 + 2 % prefCount stableDf 1) :=
  (allocate_round_robin stableDf 1 (by decide) (by decide)).2 2

/-- C4: for every accepted dataset, the faculty count table has
exactly one row per distinct assigned-faculty cell of the allocation
table (the missing marker forming its own group), each row counting
the occurrences of its value, the counts summing to the number of
allocation rows, and the rows ordered by descending count. -/
theorem allocate_faculty_count_correct (df : DataFrame) (j : ℕ)
    (hj : find_cgpa_col df.cols = some j) (hp : j + 1 < df.cols.length) :
    (allocate_students df).2 = Except.ok (allocTable df j, facCountTable df j) ∧
    (allocTable df j).rows.map List.getLast? = (assignedVals df j).map some ∧
    ((facCountTable df j).map Prod.fst).Nodup ∧
    (∀ v : Cell, v ∈ (facCountTable df j).map Prod.fst ↔ v ∈ assignedVals df j) ∧
    (∀ p ∈ facCountTable df j, p.2 = (assignedVals df j).count p.1) ∧
    ((facCountTable df j).map Prod.snd).sum = (allocTable df j).rows.length ∧
    (facCountTable df j).Pairwise (fun p q => q.2 ≤ p.2) := by
  refine ⟨by rw [allocate_students_ok df j hj hp], allocRows_getLast df j,
    facCounts_fst_nodup _, fun v => facCounts_mem_fst _ v, facCounts_counts _, ?_,
    facCounts_sorted _⟩
  show ((facCounts (assignedVals df j)).map Prod.snd).sum = (allocRows df j).length
  rw [facCounts_sum, allocRows_length, assignedVals_length, rankedRows_length]

theorem allocate_faculty_count_correct_witness :
    ((facCountTable stableDf 1).map Prod.snd).sum = (allocTable stableDf 1).rows.length :=
  (allocate_faculty_count_correct stableDf 1 (by decide) (by decide)).2.2.2.2.2.1

/-- C10: for every accepted dataset, the allocation table has exactly
as many rows as the input, its rows with the appended faculty cell
stripped are a permutation of the coerced input rows (each input row
appears exactly once), coercion changes only the grade column of a
row, and the only added column is `AssignedFaculty`. -/
theorem allocate_preserves_row_data (df : DataFrame) (j : ℕ)
    (hj : find_cgpa_col df.cols = some j) (hp : j + 1 < df.cols.length) :
    (allocate_students df).2 = Except.ok (allocTable df j, facCountTable df j) ∧
    (allocTable df j).rows.length = df.rows.length ∧
    ((allocTable df j).rows.map List.dropLast).Perm (df.rows.map (coerceRow j)) ∧
    (∀ row : List Cell, ∀ k : ℕ, k ≠ j → getCell (coerceRow j row) k = getCell row k) ∧
    (∀ row : List Cell, getCell (coerceRow j row) j = coerceCell (getCell row j)) ∧
    (allocTable df j).cols = df.cols ++ ["AssignedFaculty"] := by
  refine ⟨by rw [allocate_students_ok df j hj hp], allocRows_length df j, ?_, ?_, ?_, rfl⟩
  · have h1 : (allocTable df j).rows.map List.dropLast = rankedRows df j :=
      allocRows_dropLast df j
    rw [h1]
    exact rankRows_perm j _
  · intro row k hk
    unfold getCell coerceRow
    rw [List.getD_eq_getElem?_getD, List.getD_eq_getElem?_getD,
      List.getElem?_set_ne (Ne.symm hk)]
  · intro row
    by_cases hlen : j < row.length
    · unfold getCell coerceRow
      rw [List.getD_eq_getElem?_getD, List.getElem?_set_self hlen]
      rfl
    · have hset : row.set j (coerceCell (getCell row j)) = row :=
        List.set_eq_of_length_le (by omega)
      unfold coerceRow
      rw [hset]
      have hm : getCell row j = Cell.missing := by
        unfold getCell
        rw [List.getD_eq_getElem?_getD, List.getElem?_eq_none (by omega)]
        rfl
      rw [hm]
      rfl

theorem allocate_preserves_row_data_witness :
    (allocTable stableDf 1).rows.length = stableDf.rows.length :=
  (allocate_preserves_row_data stableDf 1 (by decide) (by decide)).2.1

/-- C9: an accepted dataset with zero data rows is processed
successfully: the allocation table is empty but carries the original
columns plus `AssignedFaculty`, and the faculty count table is
empty. -/
theorem allocate_empty_dataset (df : DataFrame) (j : ℕ)
    (hj : find_cgpa_col df.cols = some j) (hp : j + 1 < df.cols.length)
    (hrows : df.rows = []) :
    (allocate_students df).2 = Except.ok (allocTable df j, facCountTable df j) ∧
    (allocTable df j).rows = [] ∧
    (allocTable df j).cols = df.cols ++ ["AssignedFaculty"] ∧
    facCountTable df j = [] := by
  have hranked : rankedRows df j = [] := by
    simp [rankedRows, coerceGradeCol, hrows, rankRows]
  refine ⟨by rw [allocate_students_ok df j hj hp], ?_, rfl, ?_⟩
  · show allocRows df j = []
    rw [allocRows_eq_zip, hranked]
    simp
  · show facCounts (assignedVals df j) = []
    have hvals : assignedVals df j = [] := by
      simp [assignedVals, assignedList, hranked]
    rw [hvals]
    rfl

def emptyDf : DataFrame :=
  { cols := ["cgpa", "p"], rows := [] }

theorem allocate_empty_dataset_witness :
    facCountTable emptyDf 0 = [] :=
  (allocate_empty_dataset emptyDf 0 (by decide) (by decide) rfl).2.2.2

/-- A dataset whose grade cell holds non-numeric text: numeric
coercion visibly changes the caller's dataframe. -/
def c6df : DataFrame :=
  { cols := ["cgpa", "p"], rows := [[Cell.str "x", Cell.str "F"]] }

/-- C6 counterexample: the numeric coercion at app.py line 55 is not
local to a working copy — it is applied to the caller's dataframe
itself, so after the call the caller's dataset differs from what was
passed in. -/
theorem allocate_mutates_caller : (allocate_students c6df).1 ≠ c6df := by decide

/-- C6 amended: `allocate_students` coerces the grade column of the
caller's dataframe in place; after a call that passes both input checks
the caller's dataset is the coerced dataset (not the original), and
after a rejected call it is unchanged. Nothing else is mutated. -/
theorem allocate_caller_state (df : DataFrame) (j : ℕ) :
    (find_cgpa_col df.cols = none → (allocate_students df).1 = df) ∧
    (find_cgpa_col df.cols = some j → df.cols.length ≤ j + 1 →
      (allocate_students df).1 = df) ∧
    (find_cgpa_col df.cols = some j → j + 1 < df.cols.length →
      (allocate_students df).1 = coerceGradeCol df j) :=
  ⟨fun h => by rw [allocate_students_noCgpa df h],
    fun hj hl => by rw [allocate_students_noPref df j hj hl],
    fun hj hp => by rw [allocate_students_ok df j hj hp]⟩

theorem allocate_caller_state_witness :
    (allocate_students c6df).1 = coerceGradeCol c6df 0 :=
  (allocate_caller_state c6df 0).2.2 (by decide) (by decide)

/-- C7: `allocate_students` is deterministic — two calls on the
identical dataset return identical results (same caller state, same
allocation table, same faculty count table). -/
theorem allocate_deterministic (df1 df2 : DataFrame) (h : df1 = df2) :
    allocate_students df1 = allocate_students df2 := by
  rw [h]

theorem allocate_deterministic_witness :
    allocate_students stableDf = allocate_students stableDf :=
  allocate_deterministic stableDf stableDf rfl

/-- The rational 8.5 written in reduced form, so that kernel
evaluation of comparisons on it is possible. -/
def q85 : ℚ := ⟨17, 2, by norm_num, by norm_num⟩

lemma q85_eq : q85 = 8.5 := by
  rw [show (8.5 : ℚ) = 17 / 2 by norm_num]
  show (⟨17, 2, by norm_num, by norm_num⟩ : ℚ) = 17 / 2
  rw [Rat.mk'_eq_divInt, Rat.divInt_eq_div]
  norm_num

/-- The end-to-end dataset of the spec: header Name, CGPA, Pref1,
Pref2 with rows (A, 9.0, FacX, FacY), (B, 7.0, FacY, FacX),
(C, 8.5, FacX, FacZ), as it stands after CSV intake (grades already
numeric). -/
def c8df : DataFrame :=
  { cols := ["Name", "CGPA", "Pref1", "Pref2"],
    rows := [
      [Cell.str "A", Cell.num 9, Cell.str "FacX", Cell.str "FacY"],
      [Cell.str "B", Cell.num 7, Cell.str "FacY", Cell.str "FacX"],
      [Cell.str "C", Cell.num q85, Cell.str "FacX", Cell.str "FacZ"]] }

/-- C8 counterexample: on the spec's end-to-end dataset the code
ranks A, C, B but assigns A→FacX, C→FacZ, B→FacY (rank 1 reads row C's
own Pref2, which is FacZ, and rank 2 reads row B's own Pref1, which is
FacY), so the claimed assignment sequence FacX, FacY, FacX and the
claimed count table FacX:2, FacY:1 are both false. -/
theorem allocate_spec_example_refuted :
    q85 = 8.5 ∧
    (allocate_students c8df).2 = Except.ok (allocTable c8df 1, facCountTable c8df 1) ∧
    (allocTable c8df 1).rows.map List.getLast? =
      [some (Cell.str "FacX"), some (Cell.str "FacZ"), some (Cell.str "FacY")] ∧
    (allocTable c8df 1).rows.map List.getLast? ≠
      [some (Cell.str "FacX"), some (Cell.str "FacY"), some (Cell.str "FacX")] ∧
    facCountTable c8df 1 ≠ [(Cell.str "FacX", 2), (Cell.str "FacY", 1)] :=
  ⟨q85_eq, by decide, by decide, by decide, by decide⟩

/-- C8 amended: on that dataset the ranked order is A (9.0),
C (8.5), B (7.0) and the assignments are A→FacX, C→FacZ, B→FacY,
giving a count table FacX:1, FacZ:1, FacY:1 in first-appearance order
among the tied counts. -/
theorem allocate_end_to_end_actual :
    q85 = 8.5 ∧
    allocate_students c8df =
      (coerceGradeCol c8df 1,
        Except.ok
          ({ cols := ["Name", "CGPA", "Pref1", "Pref2", "AssignedFaculty"],
             rows := [
               [Cell.str "A", Cell.num 9, Cell.str "FacX", Cell.str "FacY",
                 Cell.str "FacX"],
               [Cell.str "C", Cell.num q85, Cell.str "FacX", Cell.str "FacZ",
                 Cell.str "FacZ"],
               [Cell.str "B", Cell.num 7, Cell.str "FacY", Cell.str "FacX",
                 Cell.str "FacY"]] },
           [(Cell.str "FacX", 1), (Cell.str "FacZ", 1), (Cell.str "FacY", 1)])) :=
  ⟨q85_eq, by decide⟩
